import Mathlib

/-!
# Verification of `AFMNet` — `src/code/Dataclass.py`

A shallow embedding of the `Dataclass` utility class for loading,
transforming and inspecting an AFM image dataset, together with proofs of
the behavioural properties claimed by its specification.

Modelling conventions:

* Python floats are modelled as exact rationals `ℚ` (reals `ℝ` where a
  square root is required, namely `torch.Tensor.std`) — except the
  expression `0.7 * w` in `AFMcrop`, which is modelled in IEEE-754 double
  precision (`roundDouble`), because `math.floor` of it genuinely depends
  on the binary rounding (at `w = 90` the product is just below `63`).
* Python lists mutated in place (`list.extend`) are modelled with an
  explicit store `Ref → List Transform`, so that aliasing between the two
  caller-supplied transform lists is expressible.
* Exceptions are modelled with `Except PyError`; the behaviour of the
  collaborating library constructors (`DataLoader`, batch fetching) is an
  explicit environment parameter, since whether they raise depends on the
  platform, not on this code.
-/

namespace AFMNet

/-! ## Transform pipelines (`Dataclass.add_transforms`) -/

/-- A stage of an image-transform pipeline.  `other` stands for any
caller-supplied stage (resize, flip, the AFM crop, ...); the two stages the
code itself appends are `toTensor` (`transforms.ToTensor()`) and
`normalize mean std` (`transforms.Normalize(mean, std)`). -/
inductive Transform where
  | toTensor : Transform
  | normalize (mean std : List ℚ) : Transform
  | other (tag : Nat) : Transform
deriving DecidableEq

/-- Identity of a Python list object. -/
abbrev Ref := Nat

/-- The heap of transform-list objects: contents of each list by identity. -/
abbrev Store := Ref → List Transform

/-- Python `lst.extend(xs)`: in-place append on the list named by `r`. -/
def listExtend (σ : Store) (r : Ref) (xs : List Transform) : Store :=
  fun q => if q = r then σ q ++ xs else σ q

/-- The state `add_transforms` leaves on the `Dataclass` object:
`self.mean`, `self.std` and the dictionary `self.data_transforms` of the
two composed pipelines (a `transforms.Compose` applies its list of stages
in order, so we record the list contents at composition time). -/
structure DataTransforms where
  mean : List ℚ
  std : List ℚ
  train : List Transform
  val : List Transform
deriving DecidableEq

/-- `Dataclass.add_transforms(transforms_train, transforms_val, mean, std)`:
stores `mean`/`std`, extends both caller lists in place with
`[ToTensor(), Normalize(mean, std)]`, then composes the (post-mutation)
contents into the `train`/`val` pipelines.  `rt`/`rv` are the identities of
the caller-supplied `transforms_train`/`transforms_val` list objects; the
returned store is the heap after the two in-place `extend` calls. -/
def add_transforms (σ : Store) (rt rv : Ref) (mean std : List ℚ) :
    Store × DataTransforms :=
  let σ1 := listExtend σ rt [Transform.toTensor, Transform.normalize mean std]
  let σ2 := listExtend σ1 rv [Transform.toTensor, Transform.normalize mean std]
  (σ2, ⟨mean, std, σ2 rt, σ2 rv⟩)

/-! ## Scale-bar crop (`Dataclass.AFMcrop.__call__`) -/

/-- A PIL image, abstracted to its size (`img.size = (w, h)`). -/
structure PILImage where
  width : Nat
  height : Nat
deriving DecidableEq

/-- `torchvision.transforms.functional.crop(img, top, left, height, width)`:
the cropped output region has exactly the requested height and width. -/
def functional_crop (img : PILImage) (top left height width : Nat) : PILImage :=
  ⟨width, height⟩

/-- Fuel-bounded binade search: the smallest `t` with `k / 2^t < 2^53`.
Any `fuel ≥ k` suffices, and the recursion only runs `t + 1` steps. -/
def ulpShift : Nat → Nat → Nat
  | 0, _ => 0
  | fuel + 1, k => if k < 2 ^ 53 then 0 else ulpShift fuel (k / 2) + 1

/-- Round `k / 2^t` to the nearest integer, ties to even — the rounding
step of IEEE-754 round-to-nearest arithmetic. -/
def roundHalfEven (k t : Nat) : Nat :=
  if t = 0 then k
  else if 2 * (k % 2 ^ t) < 2 ^ t then k / 2 ^ t
  else if 2 ^ t < 2 * (k % 2 ^ t) then k / 2 ^ t + 1
  else if (k / 2 ^ t) % 2 = 0 then k / 2 ^ t else k / 2 ^ t + 1

/-- The IEEE-754 double nearest to `k / 2^53` (round to nearest, ties to
even), for `k` in the range where neither overflow nor subnormals occur:
the value is snapped to the grid of spacing `2^t / 2^53`, where `t` is the
shift that brings the mantissa `k / 2^t` below `2^53`. -/
def roundDouble (k : Nat) : ℚ :=
  ((roundHalfEven k (ulpShift k k) : ℚ) * 2 ^ ulpShift k k) / 2 ^ 53

/-- The numerator of the IEEE-754 double nearest to `0.7`: the Python
literal `0.7` denotes exactly `float07num / 2^53` (`float07num_nearest`
below shows it is within half an ulp of `7/10`). -/
def float07num : Nat := 6305039478318694

/-- Python's `0.7 * w` for a nonnegative integer `w`: the double `0.7`
times the exactly-converted `w`, rounded back to double precision.
Faithful for `w < 2^53`, where the int-to-double conversion of `w` is
exact; float overflow for astronomically large `w` is not modelled. -/
def pyMul07 (w : Nat) : ℚ := roundDouble (float07num * w)

/-- `Dataclass.AFMcrop.__call__(img)`: computes `new_w = math.floor(0.7*w)`
— the product taken in IEEE-754 double precision — and returns
`crop(img, 0, 0, h, new_w)`. -/
def AFMcrop_call (img : PILImage) : PILImage :=
  functional_crop img 0 0 img.height (Nat.floor (pyMul07 img.width))

/-! ## Display helper (`Dataclass.imshow`) -/

/-- `np.clip(x, 0, 1)` on a single value. -/
def clip01 (x : ℚ) : ℚ := min (max x 0) 1

/-- `transforms.Normalize(mean, std)` on an image given as per-channel pixel
lists: each pixel of channel `c` becomes `(x - mean c) / std c`. -/
def normalizeImg {C : Nat} (mean std : Fin C → ℚ) (raw : Fin C → List ℚ) :
    Fin C → List ℚ :=
  fun c => (raw c).map fun x => (x - mean c) / std c

/-- The pixel array `Dataclass.imshow` passes to `plt.imshow`: it computes
`inp = self.std * inp + self.mean` per channel and then `np.clip(inp, 0, 1)`
(the channel-last transpose only reorders axes and is elided). -/
def imshow_display {C : Nat} (mean std : Fin C → ℚ) (inp : Fin C → List ℚ) :
    Fin C → List ℚ :=
  fun c => (inp c).map fun x => clip01 (std c * x + mean c)

/-! ## Dataset loading (`Dataclass.load_data`, `Dataclass.get_batchdata`) -/

/-- A Python exception, classified the way the `except RuntimeError` clause
in `load_data` classifies it. -/
inductive PyError where
  | runtimeError : PyError
  | otherError (tag : Nat) : PyError
deriving DecidableEq

/-- Observable effects of `load_data`: constructing a `DataLoader`,
fetching the preview batch in `get_batchdata`, and the warning printed by
the `except` clause. -/
inductive Event where
  | mkLoader (batchSize numWorkers : Nat)
  | fetchBatch (batchSize numWorkers : Nat)
  | warnZeroWorkers
deriving DecidableEq

/-- One dataset split directory: its immediate subdirectories (one per
class) with the number of image files each contains. -/
structure SplitDir where
  classes : List (String × Nat)
deriving DecidableEq

/-- The data directory: a `train` and a `val` split. -/
structure DataDir where
  train : SplitDir
  val : SplitDir
deriving DecidableEq

/-- `len(datasets.ImageFolder(split_dir, ...))`: the total number of image
files of the split. -/
def SplitDir.size (d : SplitDir) : Nat := (d.classes.map Prod.snd).sum

/-- `datasets.ImageFolder(split_dir, ...).classes`: the subdirectory names
in lexicographic order (torchvision sorts the scanned entries). -/
def SplitDir.classNames (d : SplitDir) : List String :=
  (d.classes.map Prod.fst).mergeSort (fun a b => decide (a ≤ b))

/-- The platform environment `load_data` runs against: whether constructing
a `torch.utils.data.DataLoader` with the given batch size and worker count
raises, and whether fetching a batch from such a loader raises. -/
structure LoaderEnv where
  mkLoader : Nat → Nat → Except PyError Unit
  fetchBatch : Nat → Nat → Except PyError Unit

/-- The state `load_data` records on the `Dataclass` object when it
returns: the worker count of the constructed loaders, `self.dataset_sizes`
and `self.class_names`. -/
structure LoadResult where
  numWorkers : Nat
  dataset_sizes_train : Nat
  dataset_sizes_val : Nat
  class_names : List String
deriving DecidableEq

/-- The `try` block of `load_data`: build the `train` loader, then the
`val` loader, then `self.get_batchdata()` (which fetches one batch from the
`train` loader).  Returns the outcome and the trace of effects. -/
def load_data_try (env : LoaderEnv) (bs nw : Nat) :
    Except PyError Unit × List Event :=
  match env.mkLoader bs nw with
  | .error e => (.error e, [.mkLoader bs nw])
  | .ok _ =>
    match env.mkLoader bs nw with
    | .error e => (.error e, [.mkLoader bs nw, .mkLoader bs nw])
    | .ok _ =>
      match env.fetchBatch bs nw with
      | .error e =>
        (.error e, [.mkLoader bs nw, .mkLoader bs nw, .fetchBatch bs nw])
      | .ok _ =>
        (.ok (), [.mkLoader bs nw, .mkLoader bs nw, .fetchBatch bs nw])

/-- The `except RuntimeError` clause of `load_data`: print the warning and
rebuild both loaders with `num_workers=0` (no preview-batch fetch here). -/
def load_data_fallback (env : LoaderEnv) (bs : Nat) :
    Except PyError Unit × List Event :=
  match env.mkLoader bs 0 with
  | .error e => (.error e, [.warnZeroWorkers, .mkLoader bs 0])
  | .ok _ =>
    match env.mkLoader bs 0 with
    | .error e => (.error e, [.warnZeroWorkers, .mkLoader bs 0, .mkLoader bs 0])
    | .ok _ => (.ok (), [.warnZeroWorkers, .mkLoader bs 0, .mkLoader bs 0])

/-- `Dataclass.load_data(batch_size, num_workers)`: run the `try` block; on
`RuntimeError` (and only on `RuntimeError`) run the fallback; any other
exception propagates.  Afterwards `self.dataset_sizes` and
`self.class_names` are recorded from the `ImageFolder` datasets (the class
names from the `train` split only). -/
def load_data (env : LoaderEnv) (dd : DataDir) (bs nw : Nat) :
    Except PyError LoadResult × List Event :=
  let finish : Nat → LoadResult := fun w =>
    ⟨w, dd.train.size, dd.val.size, dd.train.classNames⟩
  match load_data_try env bs nw with
  | (.ok _, tr) => (.ok (finish nw), tr)
  | (.error .runtimeError, tr) =>
    match load_data_fallback env bs with
    | (.ok _, tr2) => (.ok (finish 0), tr ++ tr2)
    | (.error e, tr2) => (.error e, tr ++ tr2)
  | (.error e, tr) => (.error e, tr)

/-! ## Mean/std estimator (`Dataclass.get_meanstd`) -/

/-- An image already flattened the way `data[0].view(b, channels, -1)`
flattens it: for each channel, the list of its pixel values. -/
def Image (C : Nat) : Type := Fin C → List ℚ

/-- `tensor.mean(2)` for one image and channel: the mean of the channel's
pixels. -/
def imgMean {C : Nat} (img : Image C) (c : Fin C) : ℚ :=
  (img c).sum / (img c).length

/-- The unbiased sample variance `torch.Tensor.std` takes the square root
of: sum of squared deviations divided by `n - 1`. -/
def imgVarUnbiased {C : Nat} (img : Image C) (c : Fin C) : ℚ :=
  ((img c).map (fun x => (x - imgMean img c) ^ 2)).sum / (((img c).length : ℚ) - 1)

/-- `tensor.std(2)` for one image and channel. -/
noncomputable def imgStd {C : Nat} (img : Image C) (c : Fin C) : ℝ :=
  Real.sqrt (imgVarUnbiased img c)

/-- The batches a non-shuffling single-pass
`DataLoader(dataset, batch_size=bs, shuffle=False)` yields: consecutive
chunks of size `bs`, the last one possibly smaller. -/
def chunks {α : Type} (bs : Nat) : List α → List (List α)
  | [] => []
  | x :: xs => (x :: xs.take (bs - 1)) :: chunks bs (xs.drop (bs - 1))
termination_by xs => xs.length
decreasing_by simp only [List.length_drop, List.length_cons]; omega

/-- The accumulators of the loop in `get_meanstd`: `mean`, `std` and
`nb_samples`. -/
structure MSAcc (C : Nat) where
  mean : Fin C → ℚ
  std : Fin C → ℝ
  nb : Nat

/-- One iteration of the loop in `get_meanstd`:
`mean += data.mean(2).sum(0)`, `std += data.std(2).sum(0)`,
`nb_samples += batch_samples`. -/
noncomputable def msStep {C : Nat} (acc : MSAcc C) (batch : List (Image C)) :
    MSAcc C :=
  ⟨fun c => acc.mean c + (batch.map (fun i => imgMean i c)).sum,
   fun c => acc.std c + (batch.map (fun i => imgStd i c)).sum,
   acc.nb + batch.length⟩

/-- The whole loop of `get_meanstd`, starting from `mean = 0.`, `std = 0.`,
`nb_samples = 0.`. -/
noncomputable def msLoop {C : Nat} (bs : Nat) (ds : List (Image C)) : MSAcc C :=
  (chunks bs ds).foldl msStep ⟨fun _ => 0, fun _ => 0, 0⟩

/-- `Dataclass.get_meanstd(transform, batch_size, dataset)`: run the
accumulation loop over the split (`ds` is the list of images the deep-copied
transform pipeline plus `ToTensor` produces, in loader order), then divide
both accumulators by `nb_samples`. -/
noncomputable def get_meanstd {C : Nat} (ds : List (Image C)) (bs : Nat) :
    (Fin C → ℚ) × (Fin C → ℝ) :=
  let acc := msLoop bs ds
  (fun c => acc.mean c / (acc.nb : ℚ), fun c => acc.std c / (acc.nb : ℝ))

/-- The quantity the spec says the estimator computes for the first
component: the mean over the dataset of the per-image per-channel means. -/
def meanOfImageMeans {C : Nat} (ds : List (Image C)) : Fin C → ℚ :=
  fun c => (ds.map (fun i => imgMean i c)).sum / (ds.length : ℚ)

/-- The quantity the spec says the estimator computes for the second
component: the mean over the dataset of the per-image per-channel stds. -/
noncomputable def meanOfImageStds {C : Nat} (ds : List (Image C)) : Fin C → ℝ :=
  fun c => (ds.map (fun i => imgStd i c)).sum / (ds.length : ℝ)

/-- All pixels of a channel across the whole dataset, pooled. -/
def datasetPixels {C : Nat} (ds : List (Image C)) (c : Fin C) : List ℚ :=
  (ds.map (fun i => i c)).flatten

/-- Modelled from the spec: the "true dataset-wide mean" the spec contrasts
the estimator against — the mean of all pooled pixels of the split. -/
def datasetWideMean {C : Nat} (ds : List (Image C)) : Fin C → ℚ :=
  fun c => (datasetPixels ds c).sum / ((datasetPixels ds c).length : ℚ)

/-- Modelled from the spec: the unbiased variance of all pooled pixels of a
channel of the split. -/
def datasetWideVar {C : Nat} (ds : List (Image C)) (c : Fin C) : ℚ :=
  ((datasetPixels ds c).map (fun x => (x - datasetWideMean ds c) ^ 2)).sum /
    (((datasetPixels ds c).length : ℚ) - 1)

/-- Modelled from the spec: the "true dataset-wide" standard deviation —
the (unbiased) standard deviation of all pooled pixels of the split. -/
noncomputable def datasetWideStd {C : Nat} (ds : List (Image C)) : Fin C → ℝ :=
  fun c => Real.sqrt (datasetWideVar ds c)

/-! ## Theorems about `add_transforms` -/

/-- C3: For every pair of caller-supplied transform lists (including an
aliased pair) and every mean/std pair, after `add_transforms` both the
`train` and the `val` composed pipelines end with exactly the two stages
"convert to tensor" followed by "normalize by (mean, std)". -/
theorem add_transforms_pipelines_end_toTensor_normalize
    (σ : Store) (rt rv : Ref) (mean std : List ℚ) :
    (∃ p, (add_transforms σ rt rv mean std).2.train =
      p ++ [Transform.toTensor, Transform.normalize mean std]) ∧
    (∃ q, (add_transforms σ rt rv mean std).2.val =
      q ++ [Transform.toTensor, Transform.normalize mean std]) := by
  constructor
  · by_cases h : rt = rv
    · exact ⟨σ rt ++ [Transform.toTensor, Transform.normalize mean std],
        by simp [add_transforms, listExtend, h]⟩
    · exact ⟨σ rt, by simp [add_transforms, listExtend, h]⟩
  · by_cases h : rv = rt
    · exact ⟨σ rv ++ [Transform.toTensor, Transform.normalize mean std],
        by simp [add_transforms, listExtend, h]⟩
    · exact ⟨σ rv, by simp [add_transforms, listExtend, h]⟩

/-- C6: `add_transforms` mutates the two caller-provided transform lists in
place — each has exactly `ToTensor` then `Normalize(mean, std)` appended —
and stores `mean` and `std` on the object. -/
theorem add_transforms_mutates_caller_lists
    (σ : Store) (rt rv : Ref) (mean std : List ℚ) (h : rt ≠ rv) :
    (add_transforms σ rt rv mean std).1 rt =
      σ rt ++ [Transform.toTensor, Transform.normalize mean std] ∧
    (add_transforms σ rt rv mean std).1 rv =
      σ rv ++ [Transform.toTensor, Transform.normalize mean std] ∧
    (add_transforms σ rt rv mean std).2.mean = mean ∧
    (add_transforms σ rt rv mean std).2.std = std := by
  refine ⟨?_, ?_, rfl, rfl⟩
  · simp [add_transforms, listExtend, h]
  · simp [add_transforms, listExtend, Ne.symm h]

/-- Witness for C6 at a concrete store and distinct list identities. -/
theorem add_transforms_mutates_caller_lists_witness :
    (add_transforms (fun _ => []) 0 1 [1/2] [1/4]).1 0 =
      (fun _ : Ref => ([] : List Transform)) 0 ++
        [Transform.toTensor, Transform.normalize [1/2] [1/4]] ∧
    (add_transforms (fun _ => []) 0 1 [1/2] [1/4]).1 1 =
      (fun _ : Ref => ([] : List Transform)) 1 ++
        [Transform.toTensor, Transform.normalize [1/2] [1/4]] ∧
    (add_transforms (fun _ => []) 0 1 [1/2] [1/4]).2.mean = [1/2] ∧
    (add_transforms (fun _ => []) 0 1 [1/2] [1/4]).2.std = [1/4] :=
  add_transforms_mutates_caller_lists (fun _ => []) 0 1 [1/2] [1/4] (by decide)

/-- C9: if the same list object is passed as both `transforms_train` and
`transforms_val`, the two in-place `extend` calls hit that one list twice,
so the shared list — and hence both composed pipelines — ends with
`ToTensor, Normalize, ToTensor, Normalize`. -/
theorem add_transforms_aliased_double_append
    (σ : Store) (r : Ref) (mean std : List ℚ) :
    (add_transforms σ r r mean std).1 r =
      σ r ++ [Transform.toTensor, Transform.normalize mean std,
        Transform.toTensor, Transform.normalize mean std] ∧
    (add_transforms σ r r mean std).2.train =
      σ r ++ [Transform.toTensor, Transform.normalize mean std,
        Transform.toTensor, Transform.normalize mean std] ∧
    (add_transforms σ r r mean std).2.val =
      σ r ++ [Transform.toTensor, Transform.normalize mean std,
        Transform.toTensor, Transform.normalize mean std] := by
  refine ⟨?_, ?_, ?_⟩ <;> simp [add_transforms, listExtend]

/-! ## Theorems about `AFMcrop` -/

/-- `float07num / 2^53` is closer to `7/10` than half a unit in the last
place, so it is the IEEE-754 double that the Python literal `0.7`
denotes. -/
theorem float07num_nearest :
    |(7 : ℚ) / 10 - (float07num : ℚ) / 2 ^ 53| < 1 / 2 ^ 54 := by
  rw [abs_lt]
  constructor <;> norm_num [float07num]

/-- `ulpShift` finds the binade: the shifted mantissa is below `2^53`, and
unless no shift was needed the mantissa is normalised (`≥ 2^52`). -/
theorem ulpShift_spec :
    ∀ (fuel k : Nat), k ≤ fuel →
      k < 2 ^ (53 + ulpShift fuel k) ∧
      (ulpShift fuel k ≠ 0 → 2 ^ (52 + ulpShift fuel k) ≤ k) := by
  intro fuel
  induction fuel with
  | zero =>
    intro k hk
    have hk0 : k = 0 := Nat.le_zero.mp hk
    subst hk0
    exact ⟨by positivity, fun h => absurd rfl h⟩
  | succ fuel ih =>
    intro k hk
    by_cases h : k < 2 ^ 53
    · simp only [ulpShift, if_pos h]
      exact ⟨by simpa using h, fun hc => absurd rfl hc⟩
    · have h53 : 2 ^ 53 ≤ k := Nat.le_of_not_lt h
      have h53n : (9007199254740992 : ℕ) ≤ k := by norm_num at h53; exact h53
      have hk2 : k / 2 ≤ fuel := by omega
      obtain ⟨ha, hb⟩ := ih (k / 2) hk2
      simp only [ulpShift, if_neg h]
      constructor
      · have h2 : k < 2 * 2 ^ (53 + ulpShift fuel (k / 2)) := by
          generalize 2 ^ (53 + ulpShift fuel (k / 2)) = P at ha ⊢
          omega
        calc k < 2 * 2 ^ (53 + ulpShift fuel (k / 2)) := h2
          _ = 2 ^ (53 + (ulpShift fuel (k / 2) + 1)) := by ring
      · intro _
        rcases Nat.eq_zero_or_pos (ulpShift fuel (k / 2)) with h0 | hpos
        · rw [h0]
          simpa using h53
        · have hb2 := hb (Nat.pos_iff_ne_zero.mp hpos)
          have hstep : 2 ^ (53 + ulpShift fuel (k / 2)) ≤ k := by
            have hpow : 2 ^ (53 + ulpShift fuel (k / 2)) =
                2 * 2 ^ (52 + ulpShift fuel (k / 2)) := by ring
            rw [hpow]
            generalize 2 ^ (52 + ulpShift fuel (k / 2)) = P at hb2 ⊢
            omega
          have heq : 52 + (ulpShift fuel (k / 2) + 1) =
              53 + ulpShift fuel (k / 2) := by omega
          rw [heq]
          exact hstep

/-- Rounding half-to-even moves the value by at most half a step. -/
theorem roundHalfEven_close (k t : Nat) :
    |((roundHalfEven k t : ℕ) : ℚ) * 2 ^ t - k| ≤ 2 ^ t / 2 := by
  by_cases ht : t = 0
  · subst ht
    simp [roundHalfEven]
  · have hP : 0 < 2 ^ t := pow_pos two_pos t
    have hdm := Nat.div_add_mod k (2 ^ t)
    have hmlt : k % 2 ^ t < 2 ^ t := Nat.mod_lt _ hP
    have hdmQ : (2 : ℚ) ^ t * ((k / 2 ^ t : ℕ) : ℚ) + ((k % 2 ^ t : ℕ) : ℚ)
        = k := by exact_mod_cast hdm
    have hmQ : ((k % 2 ^ t : ℕ) : ℚ) < 2 ^ t := by exact_mod_cast hmlt
    have hm0 : (0 : ℚ) ≤ ((k % 2 ^ t : ℕ) : ℚ) := by positivity
    unfold roundHalfEven
    rw [if_neg ht]
    by_cases h1 : 2 * (k % 2 ^ t) < 2 ^ t
    · rw [if_pos h1]
      have h1Q : 2 * ((k % 2 ^ t : ℕ) : ℚ) < 2 ^ t := by exact_mod_cast h1
      rw [abs_le]
      constructor <;> linarith
    · rw [if_neg h1]
      have h1Q : (2 : ℚ) ^ t ≤ 2 * ((k % 2 ^ t : ℕ) : ℚ) := by
        exact_mod_cast Nat.le_of_not_lt h1
      by_cases h2 : 2 ^ t < 2 * (k % 2 ^ t)
      · rw [if_pos h2]
        rw [abs_le]
        push_cast
        constructor <;> linarith
      · rw [if_neg h2]
        have htieQ : 2 * ((k % 2 ^ t : ℕ) : ℚ) = 2 ^ t := by
          exact_mod_cast Nat.le_antisymm (Nat.le_of_not_lt h2) (Nat.le_of_not_lt h1)
        by_cases h3 : (k / 2 ^ t) % 2 = 0
        · rw [if_pos h3]
          rw [abs_le]
          constructor <;> linarith
        · rw [if_neg h3]
          rw [abs_le]
          push_cast
          constructor <;> linarith

/-- Snapping `k / 2^53` to the double grid moves it by at most half an
ulp, which is at most `k / 2^106` in relative terms. -/
theorem roundDouble_close (k : Nat) :
    |roundDouble k - (k : ℚ) / 2 ^ 53| ≤ (k : ℚ) / 2 ^ 106 := by
  obtain ⟨hlt, hge⟩ := ulpShift_spec k k le_rfl
  set t := ulpShift k k with ht
  have herr := roundHalfEven_close k t
  have hdiff : roundDouble k - (k : ℚ) / 2 ^ 53 =
      (((roundHalfEven k t : ℕ) : ℚ) * 2 ^ t - k) / 2 ^ 53 := by
    rw [roundDouble, ← ht]
    ring
  rw [hdiff, abs_div, abs_of_pos (show (0 : ℚ) < 2 ^ 53 by positivity)]
  rcases Nat.eq_zero_or_pos t with h0 | hpos
  · rw [h0]
    simp [roundHalfEven]
    positivity
  · have hge2 : 2 ^ (52 + t) ≤ k := hge (Nat.pos_iff_ne_zero.mp hpos)
    have hgeQ : (2 : ℚ) ^ 52 * 2 ^ t ≤ k := by
      have hc : ((2 ^ (52 + t) : ℕ) : ℚ) ≤ k := by exact_mod_cast hge2
      calc (2 : ℚ) ^ 52 * 2 ^ t = 2 ^ (52 + t) := by ring
        _ ≤ k := by push_cast at hc; exact hc
    have h2t : (2 : ℚ) ^ t ≤ (k : ℚ) / 2 ^ 52 := by
      rw [le_div_iff₀ (by positivity)]
      linarith
    calc |((roundHalfEven k t : ℕ) : ℚ) * 2 ^ t - k| / 2 ^ 53
        ≤ ((2 : ℚ) ^ t / 2) / 2 ^ 53 :=
          (div_le_div_iff_of_pos_right (by positivity)).mpr herr
      _ ≤ (((k : ℚ) / 2 ^ 52) / 2) / 2 ^ 53 := by
          have hhalf : (2 : ℚ) ^ t / 2 ≤ ((k : ℚ) / 2 ^ 52) / 2 := by linarith
          exact (div_le_div_iff_of_pos_right (by positivity)).mpr hhalf
      _ = (k : ℚ) / 2 ^ 106 := by ring

/-- The double product `0.7 * w` is within `(7/5)·w/2^53` of the exact
`0.7·w` (the slack combines the representation error of `0.7` and the
final rounding of the product). -/
theorem pyMul07_close (w : Nat) :
    |pyMul07 w - (7 : ℚ) / 10 * w| ≤ (7 : ℚ) / 5 * w / 2 ^ 53 := by
  have hrd := roundDouble_close (float07num * w)
  have hnumQ : ((float07num * w : ℕ) : ℚ) = (float07num : ℚ) * w := by
    push_cast
    ring
  have hc : (float07num : ℚ) = 7 / 10 * 2 ^ 53 - 2 / 5 := by
    norm_num [float07num]
  have hval : ((float07num * w : ℕ) : ℚ) / 2 ^ 53 =
      (7 : ℚ) / 10 * w - (2 : ℚ) / 5 * w / 2 ^ 53 := by
    rw [hnumQ, hc]
    ring
  have hw0 : (0 : ℚ) ≤ (w : ℕ) := by positivity
  have hkb : ((float07num * w : ℕ) : ℚ) / 2 ^ 106 ≤ (w : ℚ) / 2 ^ 53 := by
    rw [hnumQ, div_le_div_iff₀ (by positivity) (by positivity)]
    have hcle : (float07num : ℚ) ≤ 2 ^ 53 := by norm_num [float07num]
    have hmul : (float07num : ℚ) * w ≤ 2 ^ 53 * w :=
      mul_le_mul_of_nonneg_right hcle hw0
    nlinarith
  have hpiece : |((float07num * w : ℕ) : ℚ) / 2 ^ 53 - (7 : ℚ) / 10 * w| =
      (2 : ℚ) / 5 * w / 2 ^ 53 := by
    rw [hval]
    have hneg : (7 : ℚ) / 10 * w - (2 : ℚ) / 5 * w / 2 ^ 53 - (7 : ℚ) / 10 * w
        = -((2 : ℚ) / 5 * w / 2 ^ 53) := by ring
    rw [hneg, abs_neg, abs_of_nonneg (by positivity)]
  have hpm : pyMul07 w = roundDouble (float07num * w) := rfl
  rw [hpm]
  calc |roundDouble (float07num * w) - (7 : ℚ) / 10 * w|
      ≤ |roundDouble (float07num * w) - ((float07num * w : ℕ) : ℚ) / 2 ^ 53| +
        |((float07num * w : ℕ) : ℚ) / 2 ^ 53 - (7 : ℚ) / 10 * w| :=
        abs_sub_le _ _ _
    _ ≤ ((float07num * w : ℕ) : ℚ) / 2 ^ 106 + (2 : ℚ) / 5 * w / 2 ^ 53 := by
        rw [hpiece]
        linarith
    _ ≤ (w : ℚ) / 2 ^ 53 + (2 : ℚ) / 5 * w / 2 ^ 53 := by linarith
    _ = (7 : ℚ) / 5 * w / 2 ^ 53 := by ring

/-- Counterexample for C4 as stated: at width 90 the crop returns 62
columns, while `⌊0.7 · 90⌋ = 63` — in double precision `0.7 * 90` falls
just below `63`. -/
theorem AFMcrop_width_ne_exact_floor_at_90 :
    (AFMcrop_call ⟨90, 1⟩).width = 62 ∧
    Nat.floor ((7 : ℚ) / 10 * ((PILImage.mk 90 1).width : ℚ)) = 63 ∧
    (AFMcrop_call ⟨90, 1⟩).width ≠
      Nat.floor ((7 : ℚ) / 10 * ((PILImage.mk 90 1).width : ℚ)) := by
  have h62 : (AFMcrop_call ⟨90, 1⟩).width = 62 := by
    show Nat.floor (pyMul07 90) = 62
    have hk : float07num * 90 = 567453553048682460 := by norm_num [float07num]
    have ht : ulpShift 567453553048682460 567453553048682460 = 6 := by decide
    have hr : roundHalfEven 567453553048682460 6 = 8866461766385663 := by decide
    have hA : pyMul07 90 = (8866461766385663 : ℚ) * 2 ^ 6 / 2 ^ 53 := by
      show roundDouble (float07num * 90) = _
      rw [hk]
      unfold roundDouble
      rw [ht, hr]
      norm_num
    rw [hA, Nat.floor_eq_iff (by norm_num)]
    norm_num
  have h63 : Nat.floor ((7 : ℚ) / 10 * ((PILImage.mk 90 1).width : ℚ)) = 63 := by
    show Nat.floor ((7 : ℚ) / 10 * ((90 : ℕ) : ℚ)) = 63
    rw [Nat.floor_eq_iff (by norm_num)]
    norm_num
  exact ⟨h62, h63, by rw [h62, h63]; norm_num⟩

/-- C4 (amended): the scale-bar crop returns the full height `H` and keeps
the left `math.floor(0.7 * W)` columns where the product is taken in
double precision: for `10 ≤ W ≤ 2^48` the output width is within one
column below the exact value, `⌊0.7·W⌋ - 1 ≤ width ≤ ⌊0.7·W⌋`,
deterministically and with no error condition. -/
theorem AFMcrop_output_size_within_one (img : PILImage)
    (h10 : 10 ≤ img.width) (hub : img.width ≤ 2 ^ 48) :
    (AFMcrop_call img).height = img.height ∧
    (AFMcrop_call img).width ≤ Nat.floor ((7 : ℚ) / 10 * img.width) ∧
    Nat.floor ((7 : ℚ) / 10 * img.width) - 1 ≤ (AFMcrop_call img).width := by
  obtain ⟨hcl, hcu⟩ := abs_le.mp (pyMul07_close img.width)
  have hwQ : (10 : ℚ) ≤ (img.width : ℚ) := by exact_mod_cast h10
  have hwub : ((img.width : ℕ) : ℚ) ≤ 2 ^ 48 := by exact_mod_cast hub
  have herr : (7 : ℚ) / 5 * img.width / 2 ^ 53 ≤ 7 / 160 := by
    have h1 : (7 : ℚ) / 5 * img.width / 2 ^ 53 ≤ 7 / 5 * 2 ^ 48 / 2 ^ 53 := by
      have hmul : (7 : ℚ) / 5 * img.width ≤ 7 / 5 * 2 ^ 48 := by linarith
      exact (div_le_div_iff_of_pos_right (by positivity)).mpr hmul
    calc (7 : ℚ) / 5 * img.width / 2 ^ 53 ≤ 7 / 5 * 2 ^ 48 / 2 ^ 53 := h1
      _ = 7 / 160 := by norm_num
  have hFle : (Nat.floor ((7 : ℚ) / 10 * img.width) : ℚ) ≤ (7 : ℚ) / 10 * img.width :=
    Nat.floor_le (by positivity)
  have hdm := Nat.div_add_mod (7 * img.width) 10
  have hq : Nat.floor ((7 : ℚ) / 10 * img.width) = 7 * img.width / 10 := by
    have hcast : ((7 : ℚ) / 10 * img.width) =
        ((7 * img.width : ℕ) : ℚ) / ((10 : ℕ) : ℚ) := by
      push_cast
      ring
    rw [hcast, Nat.floor_div_nat, Nat.floor_natCast]
  have hFfrac : (7 : ℚ) / 10 * img.width ≤
      (Nat.floor ((7 : ℚ) / 10 * img.width) : ℚ) + 9 / 10 := by
    rw [hq]
    have hdmQ : ((7 * img.width : ℕ) : ℚ) =
        10 * ((7 * img.width / 10 : ℕ) : ℚ) + ((7 * img.width % 10 : ℕ) : ℚ) := by
      exact_mod_cast hdm.symm
    have hmleQ : ((7 * img.width % 10 : ℕ) : ℚ) ≤ 9 := by
      exact_mod_cast Nat.le_of_lt_succ (Nat.mod_lt _ (by norm_num))
    push_cast at hdmQ ⊢
    linarith
  have hF7 : 7 ≤ Nat.floor ((7 : ℚ) / 10 * img.width) := by
    apply Nat.le_floor
    push_cast
    linarith
  refine ⟨rfl, ?_, ?_⟩
  · show Nat.floor (pyMul07 img.width) ≤ Nat.floor ((7 : ℚ) / 10 * img.width)
    have hA0 : (0 : ℚ) ≤ pyMul07 img.width := by linarith
    have hlt : Nat.floor (pyMul07 img.width) <
        Nat.floor ((7 : ℚ) / 10 * img.width) + 1 := by
      rw [Nat.floor_lt hA0]
      push_cast
      linarith
    omega
  · show Nat.floor ((7 : ℚ) / 10 * img.width) - 1 ≤ Nat.floor (pyMul07 img.width)
    apply Nat.le_floor
    have hcast : ((Nat.floor ((7 : ℚ) / 10 * img.width) - 1 : ℕ) : ℚ) =
        (Nat.floor ((7 : ℚ) / 10 * img.width) : ℚ) - 1 := by
      rw [Nat.cast_sub (by omega)]
      norm_num
    rw [hcast]
    linarith

/-- Witness for the amended C4 on a 10 × 5 image. -/
theorem AFMcrop_output_size_within_one_witness :
    (AFMcrop_call ⟨10, 5⟩).height = (PILImage.mk 10 5).height ∧
    (AFMcrop_call ⟨10, 5⟩).width ≤
      Nat.floor ((7 : ℚ) / 10 * ((PILImage.mk 10 5).width : ℚ)) ∧
    Nat.floor ((7 : ℚ) / 10 * ((PILImage.mk 10 5).width : ℚ)) - 1 ≤
      (AFMcrop_call ⟨10, 5⟩).width :=
  AFMcrop_output_size_within_one ⟨10, 5⟩ (Nat.le_refl 10)
    (by show (10 : ℕ) ≤ 2 ^ 48; norm_num)

/-! ## Theorems about `imshow` -/

/-- C5: for every stored mean/std with nonzero std and every raw image with
all pixel values in `[0, 1]`, the display helper's denormalization followed
by clipping inverts normalization exactly: the clip is the identity on
values already in `[0, 1]`. -/
theorem imshow_denormalization_roundtrip {C : Nat}
    (mean std : Fin C → ℚ) (raw : Fin C → List ℚ)
    (hstd : ∀ c, std c ≠ 0)
    (hraw : ∀ c, ∀ x ∈ raw c, 0 ≤ x ∧ x ≤ 1) :
    imshow_display mean std (normalizeImg mean std raw) = raw := by
  funext c
  show ((raw c).map fun x => (x - mean c) / std c).map
      (fun x => clip01 (std c * x + mean c)) = raw c
  rw [List.map_map]
  have key : ∀ x ∈ raw c,
      (fun x => clip01 (std c * x + mean c)) ((x - mean c) / std c) = x := by
    intro x hx
    obtain ⟨h0, h1⟩ := hraw c x hx
    have hs : std c * ((x - mean c) / std c) = x - mean c :=
      mul_div_cancel₀ _ (hstd c)
    simp only [hs, sub_add_cancel, clip01]
    rw [max_eq_left h0, min_eq_left h1]
  calc ((raw c).map ((fun x => clip01 (std c * x + mean c)) ∘
        fun x => (x - mean c) / std c))
      = (raw c).map id := List.map_congr_left key
    _ = raw c := List.map_id _

/-- Witness for C5 with one channel, mean 1/2, std 2 and pixels 0, 1/2, 1. -/
theorem imshow_denormalization_roundtrip_witness :
    imshow_display (fun _ : Fin 1 => (1 : ℚ)/2) (fun _ => 2)
      (normalizeImg (fun _ => (1 : ℚ)/2) (fun _ => 2) (fun _ => [0, 1/2, 1])) =
      (fun _ => [0, 1/2, 1]) :=
  imshow_denormalization_roundtrip _ _ _ (fun _ => by norm_num)
    (by intro c x hx; fin_cases hx <;> norm_num)

/-! ## Theorems about `load_data` -/

/-- Whatever path `load_data` takes, a successful return records the worker
count it ended up with (the requested one or the fallback `0`), the
per-split sizes and the `train` class names. -/
theorem load_data_ok_shape (env : LoaderEnv) (dd : DataDir) (bs nw : Nat)
    (r : LoadResult) (tr : List Event)
    (hok : load_data env dd bs nw = (.ok r, tr)) :
    r = ⟨nw, dd.train.size, dd.val.size, dd.train.classNames⟩ ∨
    r = ⟨0, dd.train.size, dd.val.size, dd.train.classNames⟩ := by
  simp only [load_data] at hok
  split at hok
  · simp only [Prod.mk.injEq, Except.ok.injEq] at hok
    exact Or.inl hok.1.symm
  · split at hok
    · simp only [Prod.mk.injEq, Except.ok.injEq] at hok
      exact Or.inr hok.1.symm
    · simp at hok
  · simp at hok

/-- Sorting the class subdirectory names of a split that holds exactly
`Bad` and `Good` yields `["Bad", "Good"]`. -/
theorem classNames_of_perm_bad_good (d : SplitDir)
    (h : List.Perm (d.classes.map Prod.fst) ["Bad", "Good"]) :
    d.classNames = ["Bad", "Good"] := by
  apply List.eq_of_perm_of_sorted (r := (· ≤ · : String → String → Prop))
      ((List.mergeSort_perm _ _).trans h)
  · exact List.sorted_mergeSort' _
  · simp [List.sorted_cons]
    decide

/-- C7: for a data directory whose splits contain exactly the class
subdirectories `Bad` and `Good`, each with at least one image, a completed
`load_data` records the class name list exactly `["Bad", "Good"]`
(lexicographic, from the `train` split) and per-split dataset sizes equal
to each split's total image-file count. -/
theorem load_data_records_classes_and_sizes
    (env : LoaderEnv) (dd : DataDir) (bs nw : Nat)
    (htrain : List.Perm (dd.train.classes.map Prod.fst) ["Bad", "Good"])
    (hval : List.Perm (dd.val.classes.map Prod.fst) ["Bad", "Good"])
    (htn : ∀ p ∈ dd.train.classes, 1 ≤ p.2)
    (hvn : ∀ p ∈ dd.val.classes, 1 ≤ p.2)
    (r : LoadResult) (tr : List Event)
    (hok : load_data env dd bs nw = (.ok r, tr)) :
    r.class_names = ["Bad", "Good"] ∧
    r.dataset_sizes_train = (dd.train.classes.map Prod.snd).sum ∧
    r.dataset_sizes_val = (dd.val.classes.map Prod.snd).sum := by
  rcases load_data_ok_shape env dd bs nw r tr hok with h | h <;> subst h <;>
    exact ⟨classNames_of_perm_bad_good _ htrain, rfl, rfl⟩

/-- Witness for C7: a two-class directory, the always-succeeding
environment, batch size 1, 0 workers. -/
theorem load_data_records_classes_and_sizes_witness :
    (LoadResult.mk 0
        (DataDir.mk ⟨[("Bad", 1), ("Good", 2)]⟩ ⟨[("Bad", 3), ("Good", 1)]⟩).train.size
        (DataDir.mk ⟨[("Bad", 1), ("Good", 2)]⟩ ⟨[("Bad", 3), ("Good", 1)]⟩).val.size
        (DataDir.mk ⟨[("Bad", 1), ("Good", 2)]⟩ ⟨[("Bad", 3), ("Good", 1)]⟩).train.classNames).class_names
      = ["Bad", "Good"] ∧
    (LoadResult.mk 0
        (DataDir.mk ⟨[("Bad", 1), ("Good", 2)]⟩ ⟨[("Bad", 3), ("Good", 1)]⟩).train.size
        (DataDir.mk ⟨[("Bad", 1), ("Good", 2)]⟩ ⟨[("Bad", 3), ("Good", 1)]⟩).val.size
        (DataDir.mk ⟨[("Bad", 1), ("Good", 2)]⟩ ⟨[("Bad", 3), ("Good", 1)]⟩).train.classNames).dataset_sizes_train
      = ((DataDir.mk ⟨[("Bad", 1), ("Good", 2)]⟩ ⟨[("Bad", 3), ("Good", 1)]⟩).train.classes.map Prod.snd).sum ∧
    (LoadResult.mk 0
        (DataDir.mk ⟨[("Bad", 1), ("Good", 2)]⟩ ⟨[("Bad", 3), ("Good", 1)]⟩).train.size
        (DataDir.mk ⟨[("Bad", 1), ("Good", 2)]⟩ ⟨[("Bad", 3), ("Good", 1)]⟩).val.size
        (DataDir.mk ⟨[("Bad", 1), ("Good", 2)]⟩ ⟨[("Bad", 3), ("Good", 1)]⟩).train.classNames).dataset_sizes_val
      = ((DataDir.mk ⟨[("Bad", 1), ("Good", 2)]⟩ ⟨[("Bad", 3), ("Good", 1)]⟩).val.classes.map Prod.snd).sum :=
  load_data_records_classes_and_sizes
    ⟨fun _ _ => .ok (), fun _ _ => .ok ()⟩
    (DataDir.mk ⟨[("Bad", 1), ("Good", 2)]⟩ ⟨[("Bad", 3), ("Good", 1)]⟩) 1 0
    (List.Perm.refl _) (List.Perm.refl _) (by decide) (by decide) _ _ rfl

/-- Recognizer for the preview-batch fetch effect. -/
def Event.isFetch : Event → Bool
  | .fetchBatch _ _ => true
  | _ => false

/-- C2: if constructing the worker-parallel loaders raises a
`RuntimeError`, `load_data` prints the warning and retries exactly once
with `num_workers=0`; when that retry constructs its loaders, the load
completes successfully with sizes and class names recorded, and when even
the 0-worker construction raises, the error propagates — there is no
second retry. -/
theorem load_data_runtimeError_single_fallback :
    (∀ (env : LoaderEnv) (dd : DataDir) (bs nw : Nat),
      env.mkLoader bs nw = .error .runtimeError →
      env.mkLoader bs 0 = .ok () →
      load_data env dd bs nw =
        (.ok ⟨0, dd.train.size, dd.val.size, dd.train.classNames⟩,
         [.mkLoader bs nw, .warnZeroWorkers, .mkLoader bs 0, .mkLoader bs 0])) ∧
    (∀ (env : LoaderEnv) (dd : DataDir) (bs nw : Nat) (e : PyError),
      env.mkLoader bs nw = .error .runtimeError →
      env.mkLoader bs 0 = .error e →
      load_data env dd bs nw =
        (.error e, [.mkLoader bs nw, .warnZeroWorkers, .mkLoader bs 0])) := by
  constructor
  · intro env dd bs nw hfail hok
    simp [load_data, load_data_try, load_data_fallback, hfail, hok]
  · intro env dd bs nw e hfail herr
    simp [load_data, load_data_try, load_data_fallback, hfail, herr]

/-- Witness for C2: an environment whose parallel construction raises
`RuntimeError` but whose 0-worker construction succeeds, and one where
every construction raises `RuntimeError`. -/
theorem load_data_runtimeError_single_fallback_witness :
    load_data
        ⟨fun _ w => if w = 0 then .ok () else .error .runtimeError,
         fun _ _ => .ok ()⟩
        (DataDir.mk ⟨[("Bad", 1), ("Good", 1)]⟩ ⟨[("Bad", 1), ("Good", 1)]⟩) 4 2 =
      (.ok ⟨0, (DataDir.mk ⟨[("Bad", 1), ("Good", 1)]⟩ ⟨[("Bad", 1), ("Good", 1)]⟩).train.size,
        (DataDir.mk ⟨[("Bad", 1), ("Good", 1)]⟩ ⟨[("Bad", 1), ("Good", 1)]⟩).val.size,
        (DataDir.mk ⟨[("Bad", 1), ("Good", 1)]⟩ ⟨[("Bad", 1), ("Good", 1)]⟩).train.classNames⟩,
       [.mkLoader 4 2, .warnZeroWorkers, .mkLoader 4 0, .mkLoader 4 0]) ∧
    load_data
        ⟨fun _ _ => .error .runtimeError, fun _ _ => .ok ()⟩
        (DataDir.mk ⟨[("Bad", 1), ("Good", 1)]⟩ ⟨[("Bad", 1), ("Good", 1)]⟩) 4 2 =
      (.error .runtimeError, [.mkLoader 4 2, .warnZeroWorkers, .mkLoader 4 0]) :=
  ⟨load_data_runtimeError_single_fallback.1 _ _ 4 2 rfl rfl,
   load_data_runtimeError_single_fallback.2 _ _ 4 2 .runtimeError rfl rfl⟩

/-- C10: only a `RuntimeError` triggers the 0-worker fallback; the guarded
region also covers the preview-batch fetch of `get_batchdata`, so a
`RuntimeError` raised there triggers the fallback too and the fallback path
fetches no preview batch, while an exception of any other type — from
loader construction or from the fetch — propagates uncaught. -/
theorem load_data_guard_scope_and_error_types :
    (∀ (env : LoaderEnv) (dd : DataDir) (bs nw : Nat),
      env.mkLoader bs nw = .ok () →
      env.fetchBatch bs nw = .error .runtimeError →
      env.mkLoader bs 0 = .ok () →
      load_data env dd bs nw =
        (.ok ⟨0, dd.train.size, dd.val.size, dd.train.classNames⟩,
         [.mkLoader bs nw, .mkLoader bs nw, .fetchBatch bs nw,
          .warnZeroWorkers, .mkLoader bs 0, .mkLoader bs 0]) ∧
      ((load_data env dd bs nw).2.countP Event.isFetch = 1)) ∧
    (∀ (env : LoaderEnv) (dd : DataDir) (bs nw t : Nat),
      env.mkLoader bs nw = .error (.otherError t) →
      load_data env dd bs nw = (.error (.otherError t), [.mkLoader bs nw])) ∧
    (∀ (env : LoaderEnv) (dd : DataDir) (bs nw t : Nat),
      env.mkLoader bs nw = .ok () →
      env.fetchBatch bs nw = .error (.otherError t) →
      load_data env dd bs nw =
        (.error (.otherError t),
         [.mkLoader bs nw, .mkLoader bs nw, .fetchBatch bs nw])) := by
  refine ⟨?_, ?_, ?_⟩
  · intro env dd bs nw hmk hfetch hmk0
    have h : load_data env dd bs nw =
        (.ok ⟨0, dd.train.size, dd.val.size, dd.train.classNames⟩,
         [.mkLoader bs nw, .mkLoader bs nw, .fetchBatch bs nw,
          .warnZeroWorkers, .mkLoader bs 0, .mkLoader bs 0]) := by
      simp [load_data, load_data_try, load_data_fallback, hmk, hfetch, hmk0]
    refine ⟨h, ?_⟩
    rw [h]
    simp [Event.isFetch, List.countP_cons]
  · intro env dd bs nw t hmk
    simp [load_data, load_data_try, hmk]
  · intro env dd bs nw t hmk hfetch
    simp [load_data, load_data_try, hmk, hfetch]

/-- Witness for C10: three environments — fetch raises `RuntimeError`,
construction raises a non-`RuntimeError`, fetch raises a
non-`RuntimeError`. -/
theorem load_data_guard_scope_and_error_types_witness :
    (load_data ⟨fun _ _ => .ok (), fun _ _ => .error .runtimeError⟩
        (DataDir.mk ⟨[("Bad", 1), ("Good", 1)]⟩ ⟨[("Bad", 1), ("Good", 1)]⟩) 4 2 =
      (.ok ⟨0, (DataDir.mk ⟨[("Bad", 1), ("Good", 1)]⟩ ⟨[("Bad", 1), ("Good", 1)]⟩).train.size,
        (DataDir.mk ⟨[("Bad", 1), ("Good", 1)]⟩ ⟨[("Bad", 1), ("Good", 1)]⟩).val.size,
        (DataDir.mk ⟨[("Bad", 1), ("Good", 1)]⟩ ⟨[("Bad", 1), ("Good", 1)]⟩).train.classNames⟩,
       [.mkLoader 4 2, .mkLoader 4 2, .fetchBatch 4 2,
        .warnZeroWorkers, .mkLoader 4 0, .mkLoader 4 0]) ∧
      ((load_data ⟨fun _ _ => .ok (), fun _ _ => .error .runtimeError⟩
        (DataDir.mk ⟨[("Bad", 1), ("Good", 1)]⟩ ⟨[("Bad", 1), ("Good", 1)]⟩) 4 2).2.countP
          Event.isFetch = 1)) ∧
    (load_data ⟨fun _ _ => .error (.otherError 3), fun _ _ => .ok ()⟩
        (DataDir.mk ⟨[("Bad", 1), ("Good", 1)]⟩ ⟨[("Bad", 1), ("Good", 1)]⟩) 4 2 =
      (.error (.otherError 3), [.mkLoader 4 2])) ∧
    (load_data ⟨fun _ _ => .ok (), fun _ _ => .error (.otherError 5)⟩
        (DataDir.mk ⟨[("Bad", 1), ("Good", 1)]⟩ ⟨[("Bad", 1), ("Good", 1)]⟩) 4 2 =
      (.error (.otherError 5), [.mkLoader 4 2, .mkLoader 4 2, .fetchBatch 4 2])) :=
  ⟨load_data_guard_scope_and_error_types.1 _ _ 4 2 rfl rfl rfl,
   load_data_guard_scope_and_error_types.2.1 _ _ 4 2 3 rfl,
   load_data_guard_scope_and_error_types.2.2 _ _ 4 2 5 rfl rfl⟩

/-! ## Theorems about `get_meanstd` -/

/-- Concatenating the batches of the single-pass loader gives back the
dataset (auxiliary strong induction on a length bound). -/
theorem chunks_flatten_aux {α : Type} (bs : Nat) :
    ∀ (n : Nat) (xs : List α), xs.length ≤ n → (chunks bs xs).flatten = xs := by
  intro n
  induction n with
  | zero =>
    intro xs h
    cases xs with
    | nil => simp [chunks]
    | cons x xs => simp at h
  | succ n ih =>
    intro xs h
    cases xs with
    | nil => simp [chunks]
    | cons x xs =>
      simp only [chunks, List.flatten_cons]
      have hlen : (xs.drop (bs - 1)).length ≤ n := by
        simp only [List.length_drop]
        simp only [List.length_cons] at h
        omega
      rw [ih (xs.drop (bs - 1)) hlen, List.cons_append, List.take_append_drop]

/-- Concatenating the batches of the single-pass loader gives back the
dataset: every image is visited exactly once. -/
theorem chunks_flatten {α : Type} (bs : Nat) (xs : List α) :
    (chunks bs xs).flatten = xs :=
  chunks_flatten_aux bs xs.length xs le_rfl

/-- With batch size 1 the loader yields the singleton batches in dataset
order. -/
theorem chunks_one {α : Type} (xs : List α) :
    chunks 1 xs = xs.map (fun a => [a]) := by
  induction xs with
  | nil => simp [chunks]
  | cons x xs ih => simp [chunks, ih]

/-- The `nb_samples` accumulator after folding over any batch list. -/
theorem foldl_msStep_nb {C : Nat} (L : List (List (Image C))) (a : MSAcc C) :
    (L.foldl msStep a).nb = a.nb + L.flatten.length := by
  induction L generalizing a with
  | nil => simp
  | cons b L ih =>
    simp only [List.foldl_cons, ih, msStep, List.flatten_cons, List.length_append]
    omega

/-- The `mean` accumulator after folding over any batch list: the sum of
the per-image per-channel means of all images seen. -/
theorem foldl_msStep_mean {C : Nat} (L : List (List (Image C))) (a : MSAcc C)
    (c : Fin C) :
    (L.foldl msStep a).mean c =
      a.mean c + (L.flatten.map (fun i => imgMean i c)).sum := by
  induction L generalizing a with
  | nil => simp
  | cons b L ih =>
    simp only [List.foldl_cons, ih, msStep, List.flatten_cons, List.map_append,
      List.sum_append]
    ring

/-- The `std` accumulator after folding over any batch list: the sum of
the per-image per-channel standard deviations of all images seen. -/
theorem foldl_msStep_std {C : Nat} (L : List (List (Image C))) (a : MSAcc C)
    (c : Fin C) :
    (L.foldl msStep a).std c =
      a.std c + (L.flatten.map (fun i => imgStd i c)).sum := by
  induction L generalizing a with
  | nil => simp
  | cons b L ih =>
    simp only [List.foldl_cons, ih, msStep, List.flatten_cons, List.map_append,
      List.sum_append]
    ring

/-- Whatever the batch size, the estimator returns the mean of the
per-image per-channel means paired with the mean of the per-image
per-channel standard deviations. -/
theorem get_meanstd_eq {C : Nat} (ds : List (Image C)) (bs : Nat) :
    get_meanstd ds bs = (meanOfImageMeans ds, meanOfImageStds ds) := by
  unfold get_meanstd msLoop
  have hnb := foldl_msStep_nb (chunks bs ds) ⟨fun _ => 0, fun _ => 0, 0⟩
  have hflat := chunks_flatten bs ds
  refine Prod.ext ?_ ?_
  · funext c
    have hm := foldl_msStep_mean (chunks bs ds) ⟨fun _ => 0, fun _ => 0, 0⟩ c
    simp only [hflat] at hm hnb
    simp only [hm, hnb, meanOfImageMeans]
    norm_num
  · funext c
    have hs := foldl_msStep_std (chunks bs ds) ⟨fun _ => 0, fun _ => 0, 0⟩ c
    simp only [hflat] at hs hnb
    simp only [hs, hnb, meanOfImageStds]
    norm_num

/-- First image of the counterexample split: one channel, pixels 0 and 0. -/
def exImg1 : Image 1 := fun _ => [0, 0]

/-- Second image of the counterexample split: one channel, pixels 0 and 2. -/
def exImg2 : Image 1 := fun _ => [0, 2]

/-- The counterexample split on which the estimator's result differs from
the true dataset-wide statistics. -/
def exDs : List (Image 1) := [exImg1, exImg2]

/-- C1: `get_meanstd` accumulates each image's per-channel mean and std
over all batches, counts the images, and divides both accumulators by the
image count: it returns the mean of per-image per-channel means and the
mean of per-image per-channel stds — and this is not the true dataset-wide
mean/std, from which it differs on the split `exDs`. -/
theorem get_meanstd_mean_of_per_image_stats :
    (∀ (C : Nat) (ds : List (Image C)) (bs : Nat), 0 < bs →
      get_meanstd ds bs = (meanOfImageMeans ds, meanOfImageStds ds)) ∧
    get_meanstd exDs 1 ≠ (datasetWideMean exDs, datasetWideStd exDs) := by
  constructor
  · intro C ds bs _
    exact get_meanstd_eq ds bs
  · intro hpair
    have h2 := congrFun (congrArg Prod.snd hpair) ⟨0, Nat.zero_lt_one⟩
    rw [get_meanstd_eq] at h2
    dsimp only at h2
    have hv1 : imgVarUnbiased exImg1 ⟨0, Nat.zero_lt_one⟩ = 0 := by
      norm_num [imgVarUnbiased, imgMean, exImg1]
    have hv2 : imgVarUnbiased exImg2 ⟨0, Nat.zero_lt_one⟩ = 2 := by
      norm_num [imgVarUnbiased, imgMean, exImg2]
    have hwv : datasetWideVar exDs ⟨0, Nat.zero_lt_one⟩ = 1 := by
      norm_num [datasetWideVar, datasetWideMean, datasetPixels, exDs, exImg1, exImg2]
    have hlhs : meanOfImageStds exDs ⟨0, Nat.zero_lt_one⟩ = Real.sqrt 2 / 2 := by
      simp only [meanOfImageStds, exDs, List.map_cons, List.map_nil, List.sum_cons,
        List.sum_nil, imgStd, hv1, hv2, List.length_cons, List.length_nil]
      norm_num
    have hrhs : datasetWideStd exDs ⟨0, Nat.zero_lt_one⟩ = 1 := by
      simp only [datasetWideStd, hwv]
      norm_num
    rw [hlhs, hrhs] at h2
    have hsq := Real.sq_sqrt (show (0 : ℝ) ≤ 2 by norm_num)
    have : Real.sqrt 2 = 2 := by linarith
    rw [this] at hsq
    norm_num at hsq

/-- Witness for C1 at the concrete split `exDs` with batch size 2. -/
theorem get_meanstd_mean_of_per_image_stats_witness :
    get_meanstd exDs 2 = (meanOfImageMeans exDs, meanOfImageStds exDs) :=
  get_meanstd_mean_of_per_image_stats.1 1 exDs 2 (by decide)

/-- C8: with batch size 1 on a split of `N` images the non-shuffling
statistics loader yields exactly the `N` singleton batches in order —
each image is visited exactly once — and the final `nb_samples` count
equals `N`. -/
theorem get_meanstd_batch_one_visits_each_image_once
    (C : Nat) (ds : List (Image C)) :
    chunks 1 ds = ds.map (fun i => [i]) ∧
    (chunks 1 ds).length = ds.length ∧
    (msLoop 1 ds).nb = ds.length := by
  refine ⟨chunks_one ds, ?_, ?_⟩
  · rw [chunks_one]; simp
  · unfold msLoop
    rw [foldl_msStep_nb, chunks_flatten]
    simp

end AFMNet
